import Mathlib

/-!
Verification development for the `pytest-fileregress` directory-inventory-and-diff
engine (`src/pytest_fileregress/plugin.py`).

The embedding models a POSIX-like file system as a `World`: a list of regular
files (absolute path, readability flag, byte content) plus a list of explicitly
existing directories.  Paths are lists of name components, which abstracts the
OS path-separator style; byte contents are lists of naturals.

The MD5 digest is abstracted as a parameter `H : Content → String`: the code's
`hashlib.md5` object accumulates the bytes fed to `update` and `hexdigest`
is a pure function of the accumulated byte string, which is exactly what the
model's fold over chunks followed by `H` captures.

`glob.glob(os.path.join(folder, "**"), recursive=True)` is modelled by
`glob_recursive`: it returns the folder itself and every file and directory
reachable below it whose relative path has no component starting with `"."`
(CPython's `**` never matches hidden entries), and returns `[]` when the
folder is not an existing directory.  The exclusion pattern is abstracted as a
Boolean predicate on folder-relative paths, applied by `glob_pattern` to the
existing entries under the folder, mirroring
`glob.glob(os.path.join(folder, exclusions), recursive=True)`.
-/

namespace FileRegress

/-- A path component (one directory or file name). -/
abbrev Name := String

/-- A path, as a list of components; separator style is abstracted away. -/
abbrev Path := List Name

/-- File content, as a list of bytes. -/
abbrev Content := List Nat

/-- One regular file in the modelled file system: its absolute path, whether
reading it succeeds, and its byte content. -/
structure FSFile where
  path : Path
  readable : Bool
  content : Content
  deriving DecidableEq, Repr

/-- The modelled file system: regular files plus explicitly existing
directories (directories implied by file paths also exist, see `dirPaths`). -/
structure World where
  files : List FSFile
  dirs : List Path
  deriving DecidableEq, Repr

/-- All proper prefixes of a path, shortest first (excluding the path itself). -/
def properPrefixes : Path → List Path
  | [] => []
  | a :: rest => [] :: (properPrefixes rest).map (a :: ·)

/-- The absolute paths of all files and explicit directories. -/
def World.entryPaths (w : World) : List Path :=
  w.files.map (·.path) ++ w.dirs

/-- Every directory that exists in the world: the explicit ones together with
every proper ancestor of any entry. -/
def World.dirPaths (w : World) : List Path :=
  w.dirs ++ (w.entryPaths.map properPrefixes).flatten

/-- Every existing path in the world (files and directories), deduplicated.
This is the universe that `glob` enumerates from. -/
def allEntries (w : World) : List Path :=
  (w.entryPaths ++ w.dirPaths).dedup

/-- Models `os.path.isdir`. -/
def isDirB (w : World) (p : Path) : Bool :=
  w.dirPaths.contains p

/-- Models `os.path.isfile`. -/
def isFileB (w : World) (p : Path) : Bool :=
  w.files.any (fun f => f.path == p)

/-- A well-formed world: file paths are distinct, and no file path is also a
directory or empty. -/
def World.wf (w : World) : Prop :=
  (w.files.map (·.path)).Nodup ∧ ∀ f ∈ w.files, isDirB w f.path = false ∧ f.path ≠ []

instance (w : World) : Decidable w.wf := by
  unfold World.wf; infer_instance

/-- Models `open(filepath, "rb")` followed by reading the whole file: succeeds
with the byte content when the path is a readable regular file, otherwise
raises, modelled as an error carrying the offending path (`IOError`). -/
def readFile (w : World) (p : Path) : Except Path Content :=
  match w.files.find? (fun f => f.path == p) with
  | some f => if f.readable then .ok f.content else .error p
  | none => .error p

/-- A path component is hidden when its name starts with a dot (the test is
on the name's first character, matching `startswith(".")`). -/
def hidden (n : Name) : Bool :=
  match n.data with
  | [] => false
  | ch :: _ => ch == '.'

/-- A relative path is visible when no component is hidden; CPython's `**`
only matches visible entries. -/
def visible (rel : Path) : Bool :=
  rel.all (fun n => !hidden n)

/-- Worker for `chunksOf`, structurally recursive on a fuel argument (each
read consumes at least one byte, so fuel equal to the byte count suffices). -/
def chunksOfAux (c : Nat) : Nat → Content → List Content
  | _, [] => []
  | 0, _ :: _ => []
  | fuel + 1, b :: rest => (b :: rest.take c) :: chunksOfAux c fuel (rest.drop c)

/-- Splits a byte string into chunks of size `c + 1` (the successor encoding
guarantees a positive chunk size); the source reads in chunks of 4096 bytes,
i.e. `c = 4095`. Models `iter(lambda: f.read(4096), b"")`. -/
def chunksOf (c : Nat) (bytes : Content) : List Content :=
  chunksOfAux c bytes.length bytes

/-- Models `get_file_hash`: feed the file's bytes to the incremental hasher in
chunks and return the digest of the accumulated bytes.  `H` abstracts the MD5
hex digest as a pure function of the accumulated byte string; `c + 1` is the
read chunk size (4096 in the source). -/
def get_file_hash (H : Content → String) (c : Nat) (w : World) (filepath : Path) :
    Except Path String :=
  (readFile w filepath).map (fun bytes => H (((chunksOf c bytes).foldl (· ++ ·) [])))

/-- Models `glob.glob(os.path.join(folder, "**"), recursive=True)`: if the
folder is an existing directory, every existing entry below it (the folder
itself included) whose relative path is visible; otherwise the empty list. -/
def glob_recursive (w : World) (folder : Path) : List Path :=
  if isDirB w folder then
    (allEntries w).filter (fun p => folder.isPrefixOf p && visible (p.drop folder.length))
  else []

/-- Models `glob.glob(os.path.join(folder, exclusions), recursive=True)` with
the pattern abstracted as a predicate `pat` on folder-relative paths: the
existing entries under the folder whose relative path matches the pattern. -/
def glob_pattern (w : World) (folder : Path) (pat : Path → Bool) : List Path :=
  (allEntries w).filter (fun p => folder.isPrefixOf p && pat (p.drop folder.length))

/-- The files surviving the enumeration-and-exclusion pipeline of
`inventory_files`: the recursive glob, filtered to regular files, minus the
separately enumerated exclusion set when a pattern is given (Python's
`if exclusions:` treats `None` and `""` alike, modelled by `Option`). -/
def survivors (w : World) (folder : Path) (exclusions : Option (Path → Bool)) : List Path :=
  let all_files := glob_recursive w folder
  let files := all_files.filter (fun p => isFileB w p)
  match exclusions with
  | none => files
  | some pat =>
      let excluded := glob_pattern w folder pat
      files.filter (fun p => !excluded.contains p)

/-- Effectful map, aborting at the first error, mirroring the Python `for`
loop over `files` that raises out of `inventory_files` on the first failing
read. -/
def mapME {α β ε : Type} (f : α → Except ε β) : List α → Except ε (List β)
  | [] => .ok []
  | a :: l =>
    match f a with
    | .error e => .error e
    | .ok b =>
      match mapME f l with
      | .error e => .error e
      | .ok bs => .ok (b :: bs)

/-- Models `inventory_files`: enumerate, filter to regular files, subtract the
exclusion set, then map each surviving file to
`(os.path.relpath(filepath, folder), get_file_hash(filepath))`.  `relpath` on
an enumerated path (which has `folder` as a prefix) is dropping the folder
components. -/
def inventory_files (H : Content → String) (c : Nat) (w : World) (folder : Path)
    (exclusions : Option (Path → Bool)) : Except Path (List (Path × String)) :=
  mapME (fun p => (get_file_hash H c w p).map (fun h => (p.drop folder.length, h)))
    (survivors w folder exclusions)

/-- Models `compare_files`: hash both files and compare the digests. -/
def compare_files (H : Content → String) (c : Nat) (w : World)
    (base_path test_path : Path) : Except Path Bool := do
  let base_hash ← get_file_hash H c w base_path
  let test_hash ← get_file_hash H c w test_path
  pure (base_hash == test_hash)

/-- The keys of an inventory (the relative paths). -/
def keysOf (m : List (Path × String)) : List Path :=
  m.map Prod.fst

/-- Models `all_files = set(base_files) | set(test_files)` in `main`. -/
def all_files (base test : List (Path × String)) : List Path :=
  (keysOf base ++ keysOf test).dedup

/-- Models `missing_in_base = [f for f in all_files if f not in base_files]`
in `main` (the extra-in-test classification). -/
def missing_in_base (base test : List (Path × String)) : List Path :=
  (all_files base test).filter (fun p => !(keysOf base).contains p)

/-- Models `missing_in_test = [f for f in all_files if f not in test_files]`
in `main`. -/
def missing_in_test (base test : List (Path × String)) : List Path :=
  (all_files base test).filter (fun p => !(keysOf test).contains p)

/-- Models `common_files = set(base_files) & set(test_files)` in `main`. -/
def common_files (base test : List (Path × String)) : List Path :=
  (all_files base test).filter (fun p => (keysOf base).contains p && (keysOf test).contains p)

/-- Models the loop in `main` collecting `different_files`: common paths whose
stored fingerprints differ (`base_files[file_path] != test_files[file_path]`). -/
def different_files (base test : List (Path × String)) : List Path :=
  (common_files base test).filter (fun p => base.lookup p != test.lookup p)

/-- The unchanged classification of the spec's table: common paths whose
stored fingerprints agree.  `main` does not materialise this list; it is the
complement of `different_files` inside `common_files`. -/
def unchanged_files (base test : List (Path × String)) : List Path :=
  (common_files base test).filter (fun p => base.lookup p == test.lookup p)

/-- A world with files placed at given relative locations below a given root,
all readable: used to state root-prefix independence of inventory keys. -/
def mkWorld (root : Path) (entries : List (Path × Content)) : World :=
  { files := entries.map (fun e => { path := root ++ e.1, readable := true, content := e.2 })
    dirs := [root] }

/-- The pipeline's exclusion condition, exposed for specification statements:
with no pattern nothing is excluded; with a pattern, a path survives when it
is not in the separately enumerated exclusion set. -/
def notExcluded (w : World) (folder : Path) : Option (Path → Bool) → Path → Prop
  | none, _ => True
  | some pat, p => p ∉ glob_pattern w folder pat

/-- How many of the four classifications of the diff table hold for a path:
the classification is total and disjoint exactly when this equals one. -/
def classCount (base test : List (Path × String)) (p : Path) : Nat :=
  (if p ∈ missing_in_base base test then 1 else 0) +
  (if p ∈ missing_in_test base test then 1 else 0) +
  (if p ∈ unchanged_files base test then 1 else 0) +
  (if p ∈ different_files base test then 1 else 0)

/-- A concrete stand-in digest function for witnesses (the claims hold for an
arbitrary digest function `H`). -/
def Hdig : Content → String :=
  fun bytes => String.mk (bytes.map (fun _ => 'x'))

/-- Witness world whose only entries live under `["other"]`, so that the root
`["does","not","exist"]` does not exist in it. -/
def wMissing : World :=
  { files := [{ path := ["other", "a.txt"], readable := true, content := [1] }]
    dirs := [["other"]] }

/-- Witness world holding a single hidden (dot-named) regular file under the
root `["r"]`. -/
def wHidden : World :=
  { files := [{ path := ["r", ".hidden.txt"], readable := true, content := [7] }]
    dirs := [["r"]] }

/-- Witness world with two visible readable files under the root `["r"]`, one
of them nested. -/
def wVis : World :=
  { files := [{ path := ["r", "a.txt"], readable := true, content := [1] },
              { path := ["r", "sub", "c.txt"], readable := true, content := [2] }]
    dirs := [["r"]] }

/-- Witness world with a `.txt` file and a `.log` file under the root `["r"]`. -/
def wLog : World :=
  { files := [{ path := ["r", "a.txt"], readable := true, content := [1] },
              { path := ["r", "b.log"], readable := true, content := [2] }]
    dirs := [["r"]] }

/-- Witness exclusion pattern matching exactly the relative path `["b.log"]`. -/
def patLog : Path → Bool :=
  fun rel => rel == ["b.log"]

/-- Witness world with one readable and one unreadable file under `["r"]`. -/
def wBad : World :=
  { files := [{ path := ["r", "good.txt"], readable := true, content := [1] },
              { path := ["r", "bad.txt"], readable := false, content := [2] }]
    dirs := [["r"]] }

/-- Witness world with two byte-identical files and one different file. -/
def wCmp : World :=
  { files := [{ path := ["a"], readable := true, content := [1, 2, 3] },
              { path := ["b"], readable := true, content := [1, 2, 3] },
              { path := ["d"], readable := true, content := [9] }]
    dirs := [] }

/-- Witness base inventory for the classification claim. -/
def bC7 : List (Path × String) :=
  [(["a"], "h1"), (["b"], "h2")]

/-- Witness test inventory for the classification claim. -/
def tC7 : List (Path × String) :=
  [(["a"], "h1"), (["c"], "h3")]

/-! ### Chunked reading collapses to the full content -/

theorem chunksOfAux_flatten (c fuel : Nat) (bytes : Content)
    (h : bytes.length ≤ fuel) : (chunksOfAux c fuel bytes).flatten = bytes := by
  induction fuel generalizing bytes with
  | zero =>
    cases bytes with
    | nil => rfl
    | cons b rest => simp at h
  | succ fuel ih =>
    cases bytes with
    | nil => rfl
    | cons b rest =>
      simp only [chunksOfAux, List.flatten_cons]
      rw [ih (rest.drop c) (by simp at h ⊢; omega)]
      simp

theorem chunksOf_flatten (c : Nat) (bytes : Content) :
    (chunksOf c bytes).flatten = bytes :=
  chunksOfAux_flatten c bytes.length bytes (Nat.le_refl _)

theorem foldl_append_eq_flatten (l : List Content) (acc : Content) :
    l.foldl (· ++ ·) acc = acc ++ l.flatten := by
  induction l generalizing acc with
  | nil => simp
  | cons x xs ih => simp [List.foldl_cons, ih]

theorem get_file_hash_ok (H : Content → String) (c : Nat) (w : World) (p : Path)
    (bytes : Content) (h : readFile w p = .ok bytes) :
    get_file_hash H c w p = .ok (H bytes) := by
  simp [get_file_hash, h, Except.map, foldl_append_eq_flatten, chunksOf_flatten]

theorem get_file_hash_error (H : Content → String) (c : Nat) (w : World) (p : Path)
    (e : Path) (h : readFile w p = .error e) :
    get_file_hash H c w p = .error e := by
  simp [get_file_hash, h, Except.map]

theorem readFile_error_eq (w : World) (p e : Path) (h : readFile w p = .error e) :
    e = p := by
  unfold readFile at h
  cases hf : w.files.find? (fun f => f.path == p) with
  | none => rw [hf] at h; cases h; rfl
  | some f =>
    rw [hf] at h
    by_cases hr : f.readable = true
    · simp [hr] at h
    · simp [hr] at h; exact h.symm

theorem readFile_cases (w : World) (p : Path) :
    (∃ bytes, readFile w p = .ok bytes) ∨ readFile w p = .error p := by
  unfold readFile
  cases hf : w.files.find? (fun f => f.path == p) with
  | none => exact Or.inr rfl
  | some f =>
    by_cases hr : f.readable = true
    · exact Or.inl ⟨f.content, by simp [hr]⟩
    · exact Or.inr (by simp [hr])

theorem readFile_not_ok_iff (w : World) (p : Path) :
    (∀ bytes, readFile w p ≠ .ok bytes) ↔ readFile w p = .error p := by
  constructor
  · intro h
    rcases readFile_cases w p with ⟨bytes, hb⟩ | he
    · exact absurd hb (h bytes)
    · exact he
  · intro h bytes hb
    rw [h] at hb
    cases hb

/-! ### Behaviour of the error-aborting map -/

theorem mapME_ok_of_forall {α β ε : Type} (f : α → Except ε β) (l : List α)
    (h : ∀ a ∈ l, ∃ b, f a = .ok b) :
    ∃ m, mapME f l = .ok m ∧ List.Forall₂ (fun a b => f a = .ok b) l m := by
  induction l with
  | nil => exact ⟨[], rfl, List.Forall₂.nil⟩
  | cons a l ih =>
    obtain ⟨b, hb⟩ := h a (by simp)
    obtain ⟨m, hm, hrel⟩ := ih (fun x hx => h x (by simp [hx]))
    exact ⟨b :: m, by simp [mapME, hb, hm], List.Forall₂.cons hb hrel⟩

theorem mapME_ok_forall₂ {α β ε : Type} (f : α → Except ε β) (l : List α)
    (m : List β) (h : mapME f l = .ok m) :
    List.Forall₂ (fun a b => f a = .ok b) l m := by
  induction l generalizing m with
  | nil => cases h; exact List.Forall₂.nil
  | cons a l ih =>
    unfold mapME at h
    cases hb : f a with
    | error e => rw [hb] at h; cases h
    | ok b =>
      rw [hb] at h
      cases hl : mapME f l with
      | error e => rw [hl] at h; cases h
      | ok bs =>
        rw [hl] at h
        cases h
        exact List.Forall₂.cons hb (ih bs hl)

theorem mapME_error_of_exists {α β ε : Type} (f : α → Except ε β) (l : List α)
    (h : ∃ a ∈ l, ∀ b, f a ≠ .ok b) :
    ∃ a ∈ l, ∃ e, f a = .error e ∧ mapME f l = .error e := by
  induction l with
  | nil => obtain ⟨a, ha, -⟩ := h; cases ha
  | cons x l ih =>
    cases hx : f x with
    | error e => exact ⟨x, by simp, e, hx, by simp [mapME, hx]⟩
    | ok b =>
      obtain ⟨a, ha, hbad⟩ := h
      rcases List.mem_cons.mp ha with rfl | hmem
      · exact absurd hx (hbad b)
      · obtain ⟨a', ha', e, he, hmap⟩ := ih ⟨a, hmem, hbad⟩
        exact ⟨a', by simp [ha'], e, he, by simp [mapME, hx, hmap]⟩

theorem forall₂_mem_left {α β : Type} {R : α → β → Prop} {l : List α} {m : List β}
    (h : List.Forall₂ R l m) {a : α} (ha : a ∈ l) : ∃ b ∈ m, R a b := by
  induction h with
  | nil => cases ha
  | cons hr _ ih =>
    rcases List.mem_cons.mp ha with rfl | hmem
    · exact ⟨_, by simp, hr⟩
    · obtain ⟨b, hb, hrb⟩ := ih hmem
      exact ⟨b, by simp [hb], hrb⟩

/-! ### Membership characterisation of the enumeration pipeline -/

theorem eq_append_drop_of_isPrefixOf (folder p : Path)
    (h : folder.isPrefixOf p = true) : p = folder ++ p.drop folder.length := by
  obtain ⟨t, ht⟩ := List.isPrefixOf_iff_prefix.mp h
  subst ht
  rw [List.drop_left]

theorem mem_allEntries_of_isFileB (w : World) (p : Path) (h : isFileB w p = true) :
    p ∈ allEntries w := by
  unfold isFileB at h
  obtain ⟨f, hf, hp⟩ := List.any_eq_true.mp h
  have hmem : p ∈ w.entryPaths :=
    List.mem_append.mpr (Or.inl (List.mem_map.mpr ⟨f, hf, by simpa using hp⟩))
  exact List.mem_dedup.mpr (List.mem_append.mpr (Or.inl hmem))

theorem glob_recursive_mem (w : World) (folder p : Path) :
    p ∈ glob_recursive w folder ↔
      (isDirB w folder = true ∧ p ∈ allEntries w ∧ folder.isPrefixOf p = true ∧
        visible (p.drop folder.length) = true) := by
  unfold glob_recursive
  by_cases hd : isDirB w folder
  · simp [hd, List.mem_filter, and_assoc]
  · simp [hd]

theorem survivors_mem (w : World) (folder : Path) (excl : Option (Path → Bool)) (p : Path) :
    p ∈ survivors w folder excl ↔
      (isDirB w folder = true ∧ isFileB w p = true ∧ folder.isPrefixOf p = true ∧
        visible (p.drop folder.length) = true ∧ notExcluded w folder excl p) := by
  cases excl with
  | none =>
    simp only [survivors, notExcluded, List.mem_filter, glob_recursive_mem, and_true]
    constructor
    · rintro ⟨⟨hd, -, hpre, hvis⟩, hfile⟩
      exact ⟨hd, hfile, hpre, hvis⟩
    · rintro ⟨hd, hfile, hpre, hvis⟩
      exact ⟨⟨hd, mem_allEntries_of_isFileB w p hfile, hpre, hvis⟩, hfile⟩
  | some pat =>
    simp only [survivors, notExcluded, List.mem_filter, glob_recursive_mem,
      Bool.not_eq_true', List.contains, ← Bool.not_eq_true, List.elem_iff]
    constructor
    · rintro ⟨⟨⟨hd, -, hpre, hvis⟩, hfile⟩, hnex⟩
      exact ⟨hd, hfile, hpre, hvis, hnex⟩
    · rintro ⟨hd, hfile, hpre, hvis, hnex⟩
      exact ⟨⟨⟨hd, mem_allEntries_of_isFileB w p hfile, hpre, hvis⟩, hfile⟩, hnex⟩

theorem survivors_nodup (w : World) (folder : Path) (excl : Option (Path → Bool)) :
    (survivors w folder excl).Nodup := by
  have hglob : (glob_recursive w folder).Nodup := by
    unfold glob_recursive
    by_cases hd : isDirB w folder
    · simp only [hd, if_pos]
      exact (List.nodup_dedup _).filter _
    · simp [hd]
  cases excl with
  | none => exact hglob.filter _
  | some pat => exact (hglob.filter _).filter _

/-! ### Characterisation of a successful inventory build -/

theorem invEntry_ok_elim (H : Content → String) (c : Nat) (w : World) (folder p : Path)
    (e : Path × String)
    (h : (get_file_hash H c w p).map (fun s => (p.drop folder.length, s)) = .ok e) :
    ∃ bytes, readFile w p = .ok bytes ∧ e = (p.drop folder.length, H bytes) := by
  rcases readFile_cases w p with ⟨bytes, hb⟩ | he
  · rw [get_file_hash_ok H c w p bytes hb] at h
    cases h
    exact ⟨bytes, hb, rfl⟩
  · rw [get_file_hash_error H c w p p he] at h
    cases h

theorem invEntry_ok_intro (H : Content → String) (c : Nat) (w : World) (folder p : Path)
    (bytes : Content) (hb : readFile w p = .ok bytes) :
    (get_file_hash H c w p).map (fun s => (p.drop folder.length, s)) =
      .ok (p.drop folder.length, H bytes) := by
  rw [get_file_hash_ok H c w p bytes hb]
  rfl

theorem forall₂_mem_right {α β : Type} {R : α → β → Prop} {l : List α} {m : List β}
    (h : List.Forall₂ R l m) {b : β} (hb : b ∈ m) : ∃ a ∈ l, R a b := by
  induction h with
  | nil => cases hb
  | cons hr _ ih =>
    rcases List.mem_cons.mp hb with rfl | hmem
    · exact ⟨_, by simp, hr⟩
    · obtain ⟨a, ha, hab⟩ := ih hmem
      exact ⟨a, by simp [ha], hab⟩

theorem keysOf_of_forall₂ {H : Content → String} {c : Nat} {w : World} {folder : Path}
    {l : List Path} {m : List (Path × String)}
    (h : List.Forall₂
      (fun p e => (get_file_hash H c w p).map (fun s => (p.drop folder.length, s)) = .ok e)
      l m) :
    keysOf m = l.map (fun p => p.drop folder.length) := by
  induction h with
  | nil => rfl
  | cons hr _ ih =>
    obtain ⟨bytes, -, he⟩ := invEntry_ok_elim _ _ _ _ _ _ hr
    simp [keysOf] at ih ⊢
    exact ⟨by rw [he], ih⟩

theorem inventory_ok_spec (H : Content → String) (c : Nat) (w : World) (folder : Path)
    (excl : Option (Path → Bool)) (m : List (Path × String))
    (h : inventory_files H c w folder excl = .ok m) :
    keysOf m = (survivors w folder excl).map (fun p => p.drop folder.length) ∧
    (keysOf m).Nodup ∧
    (∀ e, e ∈ m ↔ ∃ p ∈ survivors w folder excl,
        ∃ bytes, readFile w p = .ok bytes ∧ e = (p.drop folder.length, H bytes)) := by
  have hrel := mapME_ok_forall₂ _ _ _ h
  have hkeys := keysOf_of_forall₂ hrel
  refine ⟨hkeys, ?_, ?_⟩
  · rw [hkeys]
    refine List.Nodup.map_on ?_ (survivors_nodup w folder excl)
    intro x hx y hy hxy
    have hxpre := ((survivors_mem w folder excl x).mp hx).2.2.1
    have hypre := ((survivors_mem w folder excl y).mp hy).2.2.1
    calc x = folder ++ x.drop folder.length := eq_append_drop_of_isPrefixOf folder x hxpre
    _ = folder ++ y.drop folder.length := by rw [hxy]
    _ = y := (eq_append_drop_of_isPrefixOf folder y hypre).symm
  · intro e
    constructor
    · intro he
      obtain ⟨p, hp, hr⟩ := forall₂_mem_right hrel he
      obtain ⟨bytes, hb, heq⟩ := invEntry_ok_elim H c w folder p e hr
      exact ⟨p, hp, bytes, hb, heq⟩
    · rintro ⟨p, hp, bytes, hb, rfl⟩
      obtain ⟨e', he', hr⟩ := forall₂_mem_left hrel hp
      obtain ⟨bytes', hb', heq'⟩ := invEntry_ok_elim H c w folder p e' hr
      rw [hb] at hb'
      cases hb'
      rwa [heq'] at he'

theorem inventory_ok_of_readable (H : Content → String) (c : Nat) (w : World) (folder : Path)
    (excl : Option (Path → Bool))
    (hread : ∀ p ∈ survivors w folder excl, ∃ bytes, readFile w p = .ok bytes) :
    ∃ m, inventory_files H c w folder excl = .ok m := by
  obtain ⟨m, hm, -⟩ := mapME_ok_of_forall
    (fun p => (get_file_hash H c w p).map (fun s => (p.drop folder.length, s)))
    (survivors w folder excl)
    (fun p hp => by
      obtain ⟨bytes, hb⟩ := hread p hp
      exact ⟨(p.drop folder.length, H bytes), invEntry_ok_intro H c w folder p bytes hb⟩)
  exact ⟨m, hm⟩

theorem mem_keysOf_iff (H : Content → String) (c : Nat) (w : World) (folder : Path)
    (excl : Option (Path → Bool)) (m : List (Path × String)) (rel : Path)
    (h : inventory_files H c w folder excl = .ok m) :
    rel ∈ keysOf m ↔ ∃ p ∈ survivors w folder excl, p.drop folder.length = rel := by
  rw [(inventory_ok_spec H c w folder excl m h).1]
  simp

/-! ### Further helper lemmas -/

theorem except_isOk_exists {ε α : Type} (x : Except ε α) (h : x.isOk = true) :
    ∃ a, x = .ok a := by
  cases x with
  | ok a => exact ⟨a, rfl⟩
  | error e => simp [Except.isOk, Except.toBool] at h

theorem readFile_ok_of_readable (w : World) (p : Path)
    (hfile : isFileB w p = true) (hall : ∀ f ∈ w.files, f.readable = true) :
    ∃ bytes, readFile w p = .ok bytes := by
  obtain ⟨f, hf, hp⟩ := List.any_eq_true.mp hfile
  have hsome : (w.files.find? (fun f => f.path == p)).isSome := by
    rw [List.find?_isSome]
    exact ⟨f, hf, hp⟩
  obtain ⟨g, hg⟩ := Option.isSome_iff_exists.mp hsome
  have hgr : g.readable = true := hall g (List.mem_of_find?_eq_some hg)
  refine ⟨g.content, ?_⟩
  unfold readFile
  rw [hg]
  simp [hgr]

theorem inventory_empty_of_not_dir (H : Content → String) (c : Nat) (w : World)
    (folder : Path) (excl : Option (Path → Bool)) (h : isDirB w folder = false) :
    inventory_files H c w folder excl = .ok [] := by
  have hsurv : survivors w folder excl = [] := by
    unfold survivors glob_recursive
    rw [h]
    cases excl <;> simp
  unfold inventory_files
  rw [hsurv]
  rfl

theorem inventory_key_mem (H : Content → String) (c : Nat) (w : World) (folder : Path)
    (excl : Option (Path → Bool)) (m : List (Path × String)) (rel : Path)
    (h : inventory_files H c w folder excl = .ok m) (hdir : isDirB w folder = true) :
    rel ∈ keysOf m ↔
      (isFileB w (folder ++ rel) = true ∧ visible rel = true ∧
        notExcluded w folder excl (folder ++ rel)) := by
  rw [mem_keysOf_iff H c w folder excl m rel h]
  constructor
  · rintro ⟨p, hp, rfl⟩
    obtain ⟨-, hfile, hpre, hvis, hnex⟩ := (survivors_mem w folder excl p).mp hp
    have hsplit := eq_append_drop_of_isPrefixOf folder p hpre
    rw [← hsplit]
    exact ⟨hfile, hvis, hnex⟩
  · rintro ⟨hfile, hvis, hnex⟩
    refine ⟨folder ++ rel, ?_, by rw [List.drop_left]⟩
    rw [survivors_mem]
    refine ⟨hdir, hfile, ?_, ?_, hnex⟩
    · exact List.isPrefixOf_iff_prefix.mpr ⟨rel, rfl⟩
    · rw [List.drop_left]
      exact hvis

theorem mkWorld_isFileB (root : Path) (entries : List (Path × Content)) (rel : Path) :
    isFileB (mkWorld root entries) (root ++ rel) = true ↔ ∃ e ∈ entries, e.1 = rel := by
  unfold isFileB mkWorld
  rw [List.any_eq_true]
  constructor
  · rintro ⟨f, hf, hp⟩
    obtain ⟨e, he, rfl⟩ := List.mem_map.mp hf
    refine ⟨e, he, ?_⟩
    have : root ++ e.1 = root ++ rel := by simpa using hp
    exact List.append_cancel_left this
  · rintro ⟨e, he, rfl⟩
    exact ⟨_, List.mem_map.mpr ⟨e, he, rfl⟩, by simp⟩

theorem compare_files_eq_match (H : Content → String) (c : Nat) (w : World)
    (base_path test_path : Path) :
    compare_files H c w base_path test_path =
      match readFile w base_path, readFile w test_path with
      | .ok base_bytes, .ok test_bytes => .ok (H base_bytes == H test_bytes)
      | .error e, _ => .error e
      | .ok _, .error e => .error e := by
  unfold compare_files
  rcases readFile_cases w base_path with ⟨ca, hca⟩ | hea
  · rcases readFile_cases w test_path with ⟨cb, hcb⟩ | heb
    · rw [hca, hcb, get_file_hash_ok H c w base_path ca hca,
        get_file_hash_ok H c w test_path cb hcb]
      rfl
    · rw [hca, heb, get_file_hash_ok H c w base_path ca hca,
        get_file_hash_error H c w test_path test_path heb]
      rfl
  · rw [hea, get_file_hash_error H c w base_path base_path hea]
    rfl

/-! ### Claims -/

/-- Claim C1, counterexample: the root `["does","not","exist"]` exists in
`wMissing` neither as a directory nor as a file, yet `inventory_files` does
not fail — it silently returns the empty inventory, exactly what the claim
says never happens (the code has no `RootNotFound` error at all). -/
theorem C1_counterexample :
    isDirB wMissing ["does", "not", "exist"] = false ∧
    isFileB wMissing ["does", "not", "exist"] = false ∧
    inventory_files Hdig 4095 wMissing ["does", "not", "exist"] none = .ok [] := by
  exact ⟨by decide, by decide, rfl⟩

/-- Claim C1 (amended): for every root that does not exist as a directory,
`inventory_files` returns the empty inventory rather than failing, because
`glob.glob(folder + "/**", recursive=True)` returns `[]` for a missing root;
a missing root is therefore NOT distinguishable from an empty directory. -/
theorem C1_missing_root_returns_empty (H : Content → String) (c : Nat) (w : World)
    (folder : Path) (h : isDirB w folder = false) :
    inventory_files H c w folder none = .ok [] :=
  inventory_empty_of_not_dir H c w folder none h

/-- Witness for the amended C1 at a concrete missing root. -/
theorem C1_witness :
    inventory_files Hdig 4095 wMissing ["nope"] none = .ok [] :=
  C1_missing_root_returns_empty Hdig 4095 wMissing ["nope"] (by decide)

/-- Claim C2, counterexample: `wHidden` holds a readable regular file
`r/.hidden.txt` under the existing root `["r"]`, yet the inventory built with
no exclusion pattern is empty — hidden (dot) files get no entry, contradicting
the claim's "including hidden/dot-files". -/
theorem C2_counterexample :
    isDirB wHidden ["r"] = true ∧
    isFileB wHidden ["r", ".hidden.txt"] = true ∧
    (∀ f ∈ wHidden.files, f.readable = true) ∧
    inventory_files Hdig 4095 wHidden ["r"] none = .ok [] := by
  exact ⟨by decide, by decide, by decide, rfl⟩

/-- Claim C2 (amended): for every well-formed world, existing root and empty
exclusion pattern, when every surviving file is readable the inventory
contains exactly one entry (keys are duplicate-free) for each VISIBLE regular
file reachable under the root — a file is inventoried iff it exists at the
root-relative location and no component of its relative path starts with a
dot — and no entry is a directory. -/
theorem C2_inventory_entries (H : Content → String) (c : Nat) (w : World) (folder : Path)
    (hwf : w.wf) (hdir : isDirB w folder = true)
    (hread : ∀ p ∈ survivors w folder none, (readFile w p).isOk = true) :
    ∃ m, inventory_files H c w folder none = .ok m ∧
      (keysOf m).Nodup ∧
      (∀ rel, rel ∈ keysOf m ↔ (isFileB w (folder ++ rel) = true ∧ visible rel = true)) ∧
      (∀ rel ∈ keysOf m, isDirB w (folder ++ rel) = false) := by
  obtain ⟨m, hm⟩ := inventory_ok_of_readable H c w folder none
    (fun p hp => except_isOk_exists _ (hread p hp))
  have hkey : ∀ rel, rel ∈ keysOf m ↔
      (isFileB w (folder ++ rel) = true ∧ visible rel = true) := by
    intro rel
    rw [inventory_key_mem H c w folder none m rel hm hdir]
    simp [notExcluded]
  refine ⟨m, hm, (inventory_ok_spec H c w folder none m hm).2.1, hkey, ?_⟩
  intro rel hrel
  obtain ⟨hfile, -⟩ := (hkey rel).mp hrel
  obtain ⟨f, hf, hp⟩ := List.any_eq_true.mp hfile
  have := (hwf.2 f hf).1
  rwa [eq_of_beq hp] at this

/-- Witness for the amended C2 on a concrete world with a nested file. -/
theorem C2_witness :
    ∃ m, inventory_files Hdig 4095 wVis ["r"] none = .ok m ∧
      (keysOf m).Nodup ∧
      (∀ rel, rel ∈ keysOf m ↔ (isFileB wVis (["r"] ++ rel) = true ∧ visible rel = true)) ∧
      (∀ rel ∈ keysOf m, isDirB wVis (["r"] ++ rel) = false) :=
  C2_inventory_entries Hdig 4095 wVis ["r"] (by decide) (by decide) (by decide)

/-- Claim C3: with a non-empty exclusion pattern the key set of the inventory
is exactly the key set of the unfiltered inventory minus the relative paths of
the separately enumerated exclusion set `glob_pattern` (the code filters by
path identity against that set, and an absent/empty pattern — the `none`
branch of `survivors` — excludes nothing). -/
theorem C3_exclusion_set_difference (H : Content → String) (c : Nat) (w : World)
    (folder : Path) (pat : Path → Bool) (m0 m1 : List (Path × String))
    (h0 : inventory_files H c w folder none = .ok m0)
    (h1 : inventory_files H c w folder (some pat) = .ok m1) (rel : Path) :
    rel ∈ keysOf m1 ↔
      (rel ∈ keysOf m0 ∧ (folder ++ rel) ∉ glob_pattern w folder pat) := by
  by_cases hdir : isDirB w folder = true
  · rw [inventory_key_mem H c w folder (some pat) m1 rel h1 hdir,
      inventory_key_mem H c w folder none m0 rel h0 hdir]
    simp only [notExcluded, and_true]
    tauto
  · have h0' := inventory_empty_of_not_dir H c w folder none
      (Bool.not_eq_true _ ▸ (by simpa using hdir))
    have h1' := inventory_empty_of_not_dir H c w folder (some pat)
      (Bool.not_eq_true _ ▸ (by simpa using hdir))
    rw [h0] at h0'
    rw [h1] at h1'
    injection h0' with h0''
    injection h1' with h1''
    subst h0''
    subst h1''
    simp [keysOf]

/-- Witness for C3 on the concrete `.log` exclusion world: `b.log` is dropped
from the key set precisely because it lies in the enumerated exclusion set. -/
theorem C3_witness :
    (["b.log"] : Path) ∈ keysOf [(["a.txt"], "x")] ↔
      ((["b.log"] : Path) ∈ keysOf [(["a.txt"], "x"), (["b.log"], "x")] ∧
        (["r", "b.log"] : Path) ∉ glob_pattern wLog ["r"] patLog) :=
  C3_exclusion_set_difference Hdig 4095 wLog ["r"] patLog
    [(["a.txt"], "x"), (["b.log"], "x")] [(["a.txt"], "x")] rfl rfl ["b.log"]

/-- Claim C4: inventory keys are the root-stripped relative paths — appending
the root to a key always recovers an existing regular file, so keys are never
absolute — and two roots holding files at matching relative locations yield
the same inventory key set regardless of the root prefix (path separators are
abstracted by the component-list representation). -/
theorem C4_root_independent_keys (H : Content → String) (c : Nat)
    (root1 root2 : Path) (entries : List (Path × Content)) :
    ∃ m1 m2,
      inventory_files H c (mkWorld root1 entries) root1 none = .ok m1 ∧
      inventory_files H c (mkWorld root2 entries) root2 none = .ok m2 ∧
      (∀ rel, rel ∈ keysOf m1 ↔ rel ∈ keysOf m2) ∧
      (∀ rel ∈ keysOf m1, isFileB (mkWorld root1 entries) (root1 ++ rel) = true) := by
  have hdir : ∀ root : Path, isDirB (mkWorld root entries) root = true := by
    intro root
    simp [isDirB, World.dirPaths, mkWorld, List.contains, List.elem_iff]
  have hall : ∀ root : Path, ∀ f ∈ (mkWorld root entries).files, f.readable = true := by
    intro root f hf
    obtain ⟨e, -, rfl⟩ := List.mem_map.mp hf
    rfl
  have hread : ∀ root : Path, ∀ p ∈ survivors (mkWorld root entries) root none,
      ∃ bytes, readFile (mkWorld root entries) p = .ok bytes := by
    intro root p hp
    exact readFile_ok_of_readable _ p
      ((survivors_mem _ root none p).mp hp).2.1 (hall root)
  obtain ⟨m1, hm1⟩ := inventory_ok_of_readable H c (mkWorld root1 entries) root1 none (hread root1)
  obtain ⟨m2, hm2⟩ := inventory_ok_of_readable H c (mkWorld root2 entries) root2 none (hread root2)
  refine ⟨m1, m2, hm1, hm2, ?_, ?_⟩
  · intro rel
    rw [inventory_key_mem H c _ root1 none m1 rel hm1 (hdir root1),
      inventory_key_mem H c _ root2 none m2 rel hm2 (hdir root2)]
    simp only [notExcluded, and_true, mkWorld_isFileB]
  · intro rel hrel
    exact ((inventory_key_mem H c _ root1 none m1 rel hm1 (hdir root1)).mp hrel).1

/-- Claim C5: the fingerprint is a function of the file's byte content only —
any two files (in any worlds) holding identical bytes get identical digests,
for any read chunk sizes, and the function is deterministic (it is a pure
function of its arguments). -/
theorem C5_hash_content_only (H : Content → String) (c1 c2 : Nat) (w1 w2 : World)
    (p1 p2 : Path) (bytes : Content)
    (h1 : readFile w1 p1 = .ok bytes) (h2 : readFile w2 p2 = .ok bytes) :
    get_file_hash H c1 w1 p1 = get_file_hash H c2 w2 p2 := by
  rw [get_file_hash_ok H c1 w1 p1 bytes h1, get_file_hash_ok H c2 w2 p2 bytes h2]

/-- Witness for C5: two distinct files with identical bytes hashed with chunk
sizes 1 and 4096 give the same digest. -/
theorem C5_witness :
    get_file_hash Hdig 0 wCmp ["a"] = get_file_hash Hdig 4095 wCmp ["b"] :=
  C5_hash_content_only Hdig 0 4095 wCmp wCmp ["a"] ["b"] [1, 2, 3] rfl rfl

/-- Claim C6: `compare_files` hashes each of its two arguments independently
and returns exactly the digest equality; if reading either path fails it
propagates the `IOError` (carrying the offending path) instead of returning a
Boolean. -/
theorem C6_compare_semantics (H : Content → String) (c : Nat) (w : World)
    (base_path test_path : Path) :
    compare_files H c w base_path test_path =
      match readFile w base_path, readFile w test_path with
      | .ok base_bytes, .ok test_bytes => .ok (H base_bytes == H test_bytes)
      | .error e, _ => .error e
      | .ok _, .error e => .error e :=
  compare_files_eq_match H c w base_path test_path

/-- Claim C7: for every pair of inventories and every path in the union of
their key sets, exactly one of the four classifications of `main` holds
(`classCount` is one), and each classification is equivalent to its condition
in the spec's table: extra-in-test (`missing_in_base`) iff only in test,
`missing_in_test` iff only in base, unchanged iff in both with equal stored
fingerprints, changed (`different_files`) iff in both with differing ones.
All four are pure list computations, so no classification outcome is an
error. -/
theorem C7_classification (base test : List (Path × String)) (p : Path)
    (hp : p ∈ all_files base test) :
    (p ∈ missing_in_base base test ↔ (p ∉ keysOf base ∧ p ∈ keysOf test)) ∧
    (p ∈ missing_in_test base test ↔ (p ∈ keysOf base ∧ p ∉ keysOf test)) ∧
    (p ∈ unchanged_files base test ↔
      (p ∈ keysOf base ∧ p ∈ keysOf test ∧ base.lookup p = test.lookup p)) ∧
    (p ∈ different_files base test ↔
      (p ∈ keysOf base ∧ p ∈ keysOf test ∧ base.lookup p ≠ test.lookup p)) ∧
    classCount base test p = 1 := by
  have hunion : p ∈ keysOf base ∨ p ∈ keysOf test := by
    simpa [all_files, List.mem_dedup, List.mem_append] using hp
  have hmb : p ∈ missing_in_base base test ↔ p ∉ keysOf base := by
    simp [missing_in_base, List.mem_filter, hp, List.contains, List.elem_iff]
  have hmt : p ∈ missing_in_test base test ↔ p ∉ keysOf test := by
    simp [missing_in_test, List.mem_filter, hp, List.contains, List.elem_iff]
  have hcf : p ∈ common_files base test ↔ (p ∈ keysOf base ∧ p ∈ keysOf test) := by
    simp [common_files, List.mem_filter, hp, List.contains, List.elem_iff]
  have hun : p ∈ unchanged_files base test ↔
      (p ∈ keysOf base ∧ p ∈ keysOf test ∧ base.lookup p = test.lookup p) := by
    simp [unchanged_files, List.mem_filter, hcf, and_assoc]
  have hdf : p ∈ different_files base test ↔
      (p ∈ keysOf base ∧ p ∈ keysOf test ∧ base.lookup p ≠ test.lookup p) := by
    simp [different_files, List.mem_filter, hcf, and_assoc, bne_iff_ne]
  refine ⟨?_, ?_, hun, hdf, ?_⟩
  · rw [hmb]
    constructor
    · intro hnb
      exact ⟨hnb, hunion.resolve_left hnb⟩
    · exact fun h => h.1
  · rw [hmt]
    constructor
    · intro hnt
      exact ⟨hunion.resolve_right hnt, hnt⟩
    · exact fun h => h.2
  · by_cases hb : p ∈ keysOf base <;> by_cases ht : p ∈ keysOf test
    · by_cases heq : base.lookup p = test.lookup p <;>
        simp [classCount, hmb, hmt, hun, hdf, hb, ht, heq]
    · simp [classCount, hmb, hmt, hun, hdf, hb, ht]
    · simp [classCount, hmb, hmt, hun, hdf, hb, ht]
    · exact absurd hunion (by simp [hb, ht])

/-- Witness for C7: on concrete inventories sharing the unchanged path
`["a"]`, exactly one classification holds. -/
theorem C7_witness : classCount bC7 tC7 ["a"] = 1 :=
  (C7_classification bC7 tC7 ["a"] (by decide)).2.2.2.2

/-- Claim C8: if reading any surviving file fails, the whole inventory build
fails with an `IOError` carrying the path of an unreadable surviving file —
no partial inventory is returned (the result is an error, not a map). -/
theorem C8_read_failure_aborts (H : Content → String) (c : Nat) (w : World)
    (folder : Path) (excl : Option (Path → Bool))
    (h : ∃ p ∈ survivors w folder excl, readFile w p = .error p) :
    ∃ e, inventory_files H c w folder excl = .error e ∧
      e ∈ survivors w folder excl ∧ readFile w e = .error e := by
  obtain ⟨p, hp, herr⟩ := h
  have hbad : ∀ b, (get_file_hash H c w p).map
      (fun s => (p.drop folder.length, s)) ≠ .ok b := by
    intro b hb
    rw [get_file_hash_error H c w p p herr] at hb
    cases hb
  obtain ⟨a, ha, e, he, hmap⟩ := mapME_error_of_exists
    (fun q => (get_file_hash H c w q).map (fun s => (q.drop folder.length, s)))
    (survivors w folder excl) ⟨p, hp, hbad⟩
  rcases readFile_cases w a with ⟨bytes, hab⟩ | hae
  · rw [invEntry_ok_intro H c w folder a bytes hab] at he
    cases he
  · rw [get_file_hash_error H c w a a hae] at he
    have hea : e = a := by
      simpa [Except.map] using he.symm
    subst hea
    exact ⟨e, hmap, ha, hae⟩

/-- Witness for C8: the world `wBad` holds an unreadable file, and the build
aborts with an error naming an unreadable surviving file. -/
theorem C8_witness :
    ∃ e, inventory_files Hdig 4095 wBad ["r"] none = .error e ∧
      e ∈ survivors wBad ["r"] none ∧ readFile wBad e = .error e :=
  C8_read_failure_aborts Hdig 4095 wBad ["r"] none
    ⟨["r", "bad.txt"], by decide, rfl⟩

/-- Claim C9: a filtered inventory is a sub-map of the unfiltered one — every
(key, fingerprint) entry of the filtered inventory is an entry of the
unfiltered inventory, and both key lists are duplicate-free, so exclusion only
removes entries and never adds or alters a fingerprint. -/
theorem C9_filtered_submap (H : Content → String) (c : Nat) (w : World)
    (folder : Path) (pat : Path → Bool) (m0 m1 : List (Path × String))
    (h0 : inventory_files H c w folder none = .ok m0)
    (h1 : inventory_files H c w folder (some pat) = .ok m1) :
    (∀ e ∈ m1, e ∈ m0) ∧ (keysOf m1).Nodup ∧ (keysOf m0).Nodup := by
  have s0 := inventory_ok_spec H c w folder none m0 h0
  have s1 := inventory_ok_spec H c w folder (some pat) m1 h1
  refine ⟨?_, s1.2.1, s0.2.1⟩
  intro e he
  obtain ⟨p, hp, bytes, hb, rfl⟩ := (s1.2.2 e).mp he
  refine (s0.2.2 _).mpr ⟨p, ?_, bytes, hb, rfl⟩
  have hs := (survivors_mem w folder (some pat) p).mp hp
  exact (survivors_mem w folder none p).mpr
    ⟨hs.1, hs.2.1, hs.2.2.1, hs.2.2.2.1, trivial⟩

/-- Witness for C9 on the concrete `.log` exclusion world. -/
theorem C9_witness :
    (∀ e ∈ [((["a.txt"] : Path), "x")],
      e ∈ [((["a.txt"] : Path), "x"), (["b.log"], "x")]) ∧
    (keysOf [((["a.txt"] : Path), "x")]).Nodup ∧
    (keysOf [((["a.txt"] : Path), "x"), (["b.log"], "x")]).Nodup :=
  C9_filtered_submap Hdig 4095 wLog ["r"] patLog
    [(["a.txt"], "x"), (["b.log"], "x")] [(["a.txt"], "x")] rfl rfl

/-- Claim C10: on readable files `compare_files` is symmetric (digest equality
is symmetric) and reflexive (a file always compares equal to itself). -/
theorem C10_symmetric_reflexive (H : Content → String) (c : Nat) (w : World)
    (a b p : Path)
    (ha : (readFile w a).isOk = true) (hb : (readFile w b).isOk = true)
    (hp : (readFile w p).isOk = true) :
    compare_files H c w a b = compare_files H c w b a ∧
    compare_files H c w p p = .ok true := by
  obtain ⟨ca, hca⟩ := except_isOk_exists _ ha
  obtain ⟨cb, hcb⟩ := except_isOk_exists _ hb
  obtain ⟨cp, hcp⟩ := except_isOk_exists _ hp
  constructor
  · rw [compare_files_eq_match H c w a b, compare_files_eq_match H c w b a,
      hca, hcb]
    have hsymm : (Except.ok (H ca == H cb) : Except Path Bool) =
        Except.ok (H cb == H ca) := by
      by_cases hE : H ca = H cb
      · rw [hE]
      · rw [beq_eq_false_iff_ne.mpr hE, beq_eq_false_iff_ne.mpr (Ne.symm hE)]
    exact hsymm
  · rw [compare_files_eq_match H c w p p, hcp]
    have hrefl : (Except.ok (H cp == H cp) : Except Path Bool) = Except.ok true := by
      simp
    exact hrefl

/-- Witness for C10 on concrete readable files with differing contents. -/
theorem C10_witness :
    (compare_files Hdig 4095 wCmp ["a"] ["d"] =
      compare_files Hdig 4095 wCmp ["d"] ["a"]) ∧
    compare_files Hdig 4095 wCmp ["a"] ["a"] = .ok true :=
  C10_symmetric_reflexive Hdig 4095 wCmp ["a"] ["d"] ["a"] rfl rfl rfl

end FileRegress
